import Mathlib

/-!
# Verification of the Document Page Composition & Background Job Engine

Shallow embedding of the page/session data model, the line-based page
splitting algorithm, the undo/history mechanism, the job
partial-failure handling, and the multi-session (tab) management of the
`PDFMaster` component, together with proofs of the specified properties.

Numbers that are IEEE doubles in the source (coordinates, order keys)
are modelled as exact rationals; machine integers as `Int`/`Nat`.
The external raster codec (decode / draw / encode) is an external
collaborator and is modelled as an uninterpreted encoding function
carried in a `SplitEnv`.
-/

/-- A 2-D point of a drawn polyline (source `{ x: number; y: number }`). -/
structure Point where
  x : ℚ
  y : ℚ
deriving Repr, DecidableEq

/-- Source interface `SplitLine`: a user-drawn polyline. -/
structure SplitLine where
  id : String
  points : List Point
  isDrawing : Bool
deriving Repr, DecidableEq

/-- Source crop rectangle `{x, y, width, height}`. -/
structure CropRect where
  x : ℚ
  y : ℚ
  width : ℚ
  height : ℚ
deriving Repr, DecidableEq

/-- Source interface `PDFPage`.  The optional TS fields (`splitLines?`,
`originalImageData?`, `isOriginal?`, `parentPageId?`, `splitIndex?`)
become `Option` fields; `undefined` is `none`.  The live
`originalImage : HTMLImageElement` handle is presentation-only and is
not part of the model. -/
structure PDFPage where
  id : String
  name : String
  imageData : String
  rotation : Int
  crop : CropRect
  order : ℚ
  width : ℚ
  height : ℚ
  splitLines : Option (List SplitLine) := none
  originalImageData : Option String := none
  isOriginal : Option Bool := none
  parentPageId : Option String := none
  splitIndex : Option Nat := none
deriving Repr, DecidableEq

/-- Source interface `PDFSession`: an isolated editing workspace (tab). -/
structure PDFSession where
  id : String
  name : String
  pages : List PDFPage
  createdAt : Int
  modifiedAt : Int
deriving Repr, DecidableEq

/-- Terminal and running statuses of a `ProcessingJob`
(source union `'processing' | 'completed' | 'error'`; the spec calls
the `error` status `failed`). -/
inductive JobStatus where
  | processing
  | completed
  | error
deriving Repr, DecidableEq

/-- Source interface `ProcessingJob` (the `type` tag and timestamp are
irrelevant to the verified properties and omitted). -/
structure ProcessingJob where
  id : String
  sessionId : String
  sessionName : String
  status : JobStatus
  progress : Nat
  total : Nat
  message : String
deriving Repr, DecidableEq

/-- The component state slots the verified operations touch:
`sessions`, `activeSessionId`, `pages` (the live page list of the
active session), the transient editor state reset on a session switch
(`selectedPages`, `floatingPages` keys, `zoomedPages`,
`rearrangeMode`), and the undo history (`editHistory`,
`currentHistoryIndex`, initially `[]` / `-1`). -/
structure AppState where
  sessions : List PDFSession
  activeSessionId : String
  pages : List PDFPage
  selectedPages : List String
  floatingPages : List String
  zoomedPages : List String
  rearrangeMode : Bool
  editHistory : List (List PDFPage)
  currentHistoryIndex : Int
deriving Repr, DecidableEq

/-- A page value with all-default contents, used only as the default of
list indexing that the source performs unchecked (`pages[oldIndex]`,
`editHistory[i]`) at indices it has already validated. -/
def defaultPage : PDFPage :=
  { id := "", name := "", imageData := "", rotation := 0
    crop := ⟨0, 0, 0, 0⟩, order := 0, width := 0, height := 0 }

/-! ## History Manager (`saveToHistory`, `undo`) -/

/-- Source `saveToHistory`: truncate the history after the cursor
(`editHistory.slice(0, currentHistoryIndex + 1)`), push a copy of the
live page list, and point the cursor at the new top. -/
def saveToHistory (st : AppState) : AppState :=
  let newHistory := st.editHistory.take (st.currentHistoryIndex + 1).toNat ++ [st.pages]
  { st with editHistory := newHistory
            currentHistoryIndex := (newHistory.length : Int) - 1 }

/-- Source `undo`: if `currentHistoryIndex > 0`, install
`editHistory[currentHistoryIndex - 1]` as the live page list and move
the cursor back one position; otherwise do nothing. -/
def undo (st : AppState) : AppState :=
  if 0 < st.currentHistoryIndex then
    { st with pages := st.editHistory.getD (st.currentHistoryIndex - 1).toNat []
              currentHistoryIndex := st.currentHistoryIndex - 1 }
  else st

/-! ## Session Manager (`saveCurrentSession`, `switchToSession`, `closeSession`) -/

/-- Source `saveCurrentSession`: flush the live page list into the
stored record of the active session, stamping `modifiedAt` with the
current time (`Date.now()` is passed in as `now`).  The
`if (!activeSession) return` guard fires exactly when the session list
is empty (`activeSession` falls back to `sessions[0]`). -/
def saveCurrentSession (now : Int) (st : AppState) : AppState :=
  if st.sessions.isEmpty then st
  else
    { st with sessions := st.sessions.map fun s =>
        if s.id == st.activeSessionId then { s with pages := st.pages, modifiedAt := now }
        else s }

/-- Source `switchToSession`: flush the active session, then look the
target up in the session list as it was *before* the flush (the React
state variable read inside the function is the stale render snapshot)
and, when found, make it active, install its stored pages as the live
list and reset the transient editor state. -/
def switchToSession (now : Int) (st : AppState) (sessionId : String) : AppState :=
  let flushed := saveCurrentSession now st
  match st.sessions.find? (fun s => s.id == sessionId) with
  | some s =>
      { flushed with activeSessionId := sessionId, pages := s.pages
                     selectedPages := [], floatingPages := [], zoomedPages := []
                     rearrangeMode := false }
  | none => flushed

/-- Source `closeSession`: refuse to close the last remaining session;
otherwise remove the session (the queued functional update filters the
list), and if it was active, switch to the first remaining session.
The `switchToSession` inside operates on the already-filtered list, as
its queued `setSessions` update composes after the filter. -/
def closeSession (now : Int) (st : AppState) (sessionId : String) : AppState :=
  if st.sessions.length = 1 then st
  else
    let st1 := { st with sessions := st.sessions.filter (fun s => !(s.id == sessionId)) }
    if sessionId == st.activeSessionId then
      match st.sessions.filter (fun s => !(s.id == sessionId)) with
      | [] => st1
      | r :: _ => switchToSession now st1 r.id
    else st1

/-! ## Manual rearrange (`applyInputRearrange`) -/

/-- Result of `applyInputRearrange`: the (possibly unchanged) page list
and whether the input was accepted (`accepted = false` corresponds to
the early-`return`-with-`alert` paths of the source). -/
structure RearrangeOutcome where
  pages : List PDFPage
  accepted : Bool
deriving Repr, DecidableEq

/-- Source `.map((page, index) => ({ ...page, order: index }))` starting
at index `i`. -/
def reindexFrom (i : Nat) : List PDFPage → List PDFPage
  | [] => []
  | p :: ps => { p with order := (i : ℚ) } :: reindexFrom (i + 1) ps

/-- Source `applyInputRearrange`.  `nums` is the list of user-supplied
position numbers (the source parses them with
`rearrangeInput.split(',').map(num => parseInt(num.trim()) - 1)`; the
string-splitting and `parseInt` happen outside this model).  The input
is rejected unless it has exactly one position per page, every
(decremented) position is in range, and the positions are pairwise
distinct (`new Set(newOrder).size === newOrder.length`); on rejection
the page list is left untouched. -/
def applyInputRearrange (pages : List PDFPage) (nums : List Int) : RearrangeOutcome :=
  let newOrder := nums.map fun n => n - 1
  if newOrder.length = pages.length then
    let validPositions := newOrder.all fun pos =>
      decide (0 ≤ pos) && decide (pos < (pages.length : Int))
    let uniquePositions := newOrder.dedup.length == newOrder.length
    if validPositions && uniquePositions then
      let reorderedPages := newOrder.map fun oldIndex => pages.getD oldIndex.toNat defaultPage
      ⟨reindexFrom 0 reorderedPages, true⟩
    else ⟨pages, false⟩
  else ⟨pages, false⟩

/-! ## Split Engine (`splitImageByLines` and friends) -/

/-- The environment of one `splitImageByLines` run: the decoded source
raster's native dimensions (`sourceCanvas.width/height` from the loaded
image), the affine scale factors between the display canvas the lines
were drawn on and the source raster (`1` when no display canvas is
registered), and the external raster codec step that crops the band
`[currentY, currentY + height)` out of the source and encodes it
(`segmentCanvas.toDataURL`), uninterpreted here. -/
structure SplitEnv where
  sourceW : ℚ
  sourceH : ℚ
  scaleX : ℚ
  scaleY : ℚ
  encodeSegment : ℚ → Int → String

/-- Rescale a drawn polyline into raster space
(`points.map(p => ({x: p.x * scaleX, y: p.y * scaleY}))`). -/
def rescaleLine (sx sy : ℚ) (l : SplitLine) : SplitLine :=
  { l with points := l.points.map fun p => ⟨p.x * sx, p.y * sy⟩ }

/-- Mean Y of a polyline's points, the sort key of the split lines
(`points.reduce((sum, p) => sum + p.y, 0) / points.length`). -/
def meanY (l : SplitLine) : ℚ :=
  (l.points.map Point.y).sum / (l.points.length : ℚ)

/-- Minimum Y of a polyline's points
(`Math.min(...points.map(p => p.y))`).  Drawn lines always have at
least two points (`finishDrawingSplitLine` discards shorter strokes),
so the empty case is unreachable; `0` is a placeholder there (JS would
give `Infinity`). -/
def minY (l : SplitLine) : ℚ :=
  match l.points.map Point.y with
  | [] => 0
  | y :: ys => ys.foldl min y

/-- One stable-insertion step of `stableSortBy`. -/
def insertBy (key : α → ℚ) (a : α) : List α → List α
  | [] => [a]
  | b :: bs => if key b < key a then b :: insertBy key a bs else a :: b :: bs

/-- Stable sort by a rational key, ascending: the model of JS
`Array.prototype.sort` with the numeric comparator
`(a, b) => key(a) - key(b)` (required stable since ES2019). -/
def stableSortBy (key : α → ℚ) : List α → List α
  | [] => []
  | a :: as => insertBy key a (stableSortBy key as)

/-- Height of the band between boundary `currentY` and the next cut
`nextY` (`Math.max(1, Math.floor(nextY - currentY))`). -/
def segmentHeight (currentY nextY : ℚ) : Int :=
  max 1 ⌊nextY - currentY⌋

/-- The new page built for band `i` (`const newPage: PDFPage = {...page, ...}`). -/
def mkSegment (env : SplitEnv) (page : PDFPage) (i : Nat) (currentY : ℚ) (segH : Int) :
    PDFPage :=
  { page with
      id := page.id ++ "_split_" ++ toString i
      name := page.name ++ "_part_" ++ toString (i + 1)
      imageData := env.encodeSegment currentY segH
      parentPageId := some page.id
      splitIndex := some i
      order := page.order + (i : ℚ) * (1 / 1000)
      width := env.sourceW
      height := (segH : ℚ)
      crop := ⟨0, 0, env.sourceW, (segH : ℚ)⟩
      splitLines := none
      isOriginal := some false }

/-- The segment-carving loop of `splitImageByLines`
(`for (let i = 0; i <= sortedLines.length; i++) ...`): walk the sorted
lines keeping the running boundary `currentY`; the next cut is the
line's minimum Y, or the source height after the last line; emit a
segment only when the band height exceeds 5; advance the boundary by a
2-pixel gap past the cut. -/
def splitWalk (env : SplitEnv) (page : PDFPage) : Nat → ℚ → List SplitLine → List PDFPage
  | i, currentY, [] =>
      if 5 < segmentHeight currentY env.sourceH then
        [mkSegment env page i currentY (segmentHeight currentY env.sourceH)]
      else []
  | i, currentY, l :: rest =>
      (if 5 < segmentHeight currentY (minY l) then
        [mkSegment env page i currentY (segmentHeight currentY (minY l))]
      else [])
      ++ splitWalk env page (i + 1) (minY l + 2) rest

/-- The list of candidate band heights the walk examines, in order. -/
def bandHeights (env : SplitEnv) : ℚ → List SplitLine → List Int
  | currentY, [] => [segmentHeight currentY env.sourceH]
  | currentY, l :: rest => segmentHeight currentY (minY l) :: bandHeights env (minY l + 2) rest

/-- The rescale-and-sort preprocessing of `splitImageByLines`. -/
def sortedScaledLines (env : SplitEnv) (lines : List SplitLine) : List SplitLine :=
  stableSortBy meanY (lines.map (rescaleLine env.scaleX env.scaleY))

/-- Source `splitImageByLines`: a page with no split lines is returned
unchanged as the sole result; otherwise rescale the lines into raster
space, sort by mean Y, carve the bands, and if no band survived the
5-pixel threshold return the original page unchanged
(`resolve(splitPages.length > 0 ? splitPages : [page])`). -/
def splitImageByLines (env : SplitEnv) (page : PDFPage) : List PDFPage :=
  match page.splitLines with
  | none => [page]
  | some lines =>
      if lines.isEmpty then [page]
      else
        let splitPages := splitWalk env page 0 0 (sortedScaledLines env lines)
        if splitPages.isEmpty then [page] else splitPages

/-- The per-page body of the loop of `applySplitsToAllPages`
(`page.splitLines && page.splitLines.length > 0 ? await
splitImageByLines(page) : [page]`). -/
def splitPageIfHasLines (env : String → SplitEnv) (page : PDFPage) : List PDFPage :=
  if (page.splitLines.getD []).isEmpty then [page]
  else splitImageByLines (env page.id) page

/-- Source `applySplitsToAllPages`: a no-op unless the apply-to-all
toggle is set; otherwise commit a history snapshot, split every page
that carries split lines, concatenate the results in page order, and
install the concatenation sorted by the `order` key
(`setPages(allSplitPages.sort((a, b) => a.order - b.order))`).  `env`
maps a page id to that page's decoded raster and display-canvas scale
(the source reads them from the loaded image and `canvasRefs`). -/
def applySplitsToAllPages (env : String → SplitEnv) (applyToAll : Bool) (st : AppState) :
    AppState :=
  if !applyToAll then st
  else
    let st1 := saveToHistory st
    let allSplitPages := st.pages.flatMap (splitPageIfHasLines env)
    { st1 with pages := stableSortBy PDFPage.order allSplitPages }

/-! ## Drawing split lines (`finishDrawingSplitLine`) -/

/-- Source `finishDrawingSplitLine`, acting on the page list: if no
stroke is in progress, no page is targeted, or the stroke has fewer
than two points, the page list is untouched (only the transient drawing
state is reset); otherwise the stroke becomes a new `SplitLine` (with a
freshly generated id, passed in as `lineId`) appended to the target
page's `splitLines`, backing up `originalImageData` on first edit and
clearing `isOriginal`. -/
def finishDrawingSplitLine (isDrawing : Bool) (drawingPageId : Option String)
    (currentSplitLine : List Point) (lineId : String) (pages : List PDFPage) :
    List PDFPage :=
  if !isDrawing || drawingPageId.isNone || currentSplitLine.length < 2 then pages
  else
    pages.map fun page =>
      if some page.id == drawingPageId then
        { page with
            originalImageData := some (page.originalImageData.getD page.imageData)
            splitLines := some ((page.splitLines.getD []) ++
              [{ id := lineId, points := currentSplitLine, isDrawing := false }])
            isOriginal := some false }
      else page

/-! ## Job Queue: the per-unit extraction loop of `handlePDFUpload` -/

/-- One unit of a multi-unit job: either the page it produced or the
error its `catch` block swallowed. -/
def unitFailed : Except String PDFPage → Bool
  | .ok _ => false
  | .error _ => true

/-- The page-extraction loop of `handlePDFUpload`: each unit is wrapped
in `try/catch`, a failed unit is logged and skipped
(`continue` / fall through to the next iteration) and a successful unit
appends its page to `newPages`. -/
def extractLoop : List (Except String PDFPage) → List PDFPage
  | [] => []
  | .ok p :: rest => p :: extractLoop rest
  | .error _ :: rest => extractLoop rest

/-- Source `completeProcessingJob` restricted to the job record it
rewrites (the grace-period purge and the global counter are timing
concerns outside this model). -/
def completeProcessingJob (job : ProcessingJob) (status : JobStatus) (message : String) :
    ProcessingJob :=
  { job with status := status, message := message }

/-- The terminal step of `handlePDFUpload` for one PDF of `numPages`
units: if at least one unit succeeded, append the extracted pages to
the session and complete the job with status `completed`; if zero units
succeeded, complete it with status `error` (the spec's `failed`) and
leave the page list untouched. -/
def finishPDFUpload (fileName : String) (numPages : Nat)
    (units : List (Except String PDFPage)) (job : ProcessingJob)
    (pages : List PDFPage) : ProcessingJob × List PDFPage :=
  let newPages := extractLoop units
  if 0 < newPages.length then
    (completeProcessingJob job .completed
      ("Successfully extracted " ++ toString newPages.length ++ "/" ++ toString numPages ++
        " pages from " ++ fileName),
     pages ++ newPages)
  else
    (completeProcessingJob job .error
      ("No pages could be extracted from " ++ fileName ++
        ". The PDF might be corrupted or protected."),
     pages)

/-! ## The page/session invariants -/

/-- The data-model invariant on one page: a page with a non-empty
`splitLines` list has no `parentPageId` (derived segments never carry
split lines). -/
def pageInvariant (p : PDFPage) : Prop :=
  p.splitLines.getD [] ≠ [] → p.parentPageId = none

instance (p : PDFPage) : Decidable (pageInvariant p) := by
  unfold pageInvariant; infer_instance

/-- The invariant over a whole page list. -/
def pagesInvariant (l : List PDFPage) : Prop :=
  ∀ p ∈ l, pageInvariant p

instance (l : List PDFPage) : Decidable (pagesInvariant l) := by
  unfold pagesInvariant; infer_instance

/-- The session-collection invariant: at least one session exists, the
session ids are pairwise distinct, and the active-session pointer names
one of them. -/
def sessionsWellFormed (st : AppState) : Prop :=
  st.sessions ≠ [] ∧ (st.sessions.map PDFSession.id).Nodup ∧
    st.activeSessionId ∈ st.sessions.map PDFSession.id

instance (st : AppState) : Decidable (sessionsWellFormed st) := by
  unfold sessionsWellFormed
  infer_instance



/-! ## Lemmas about the stable sort -/

theorem insertBy_perm (key : α → ℚ) (a : α) (l : List α) :
    List.Perm (insertBy key a l) (a :: l) := by
  induction l with
  | nil => simp [insertBy]
  | cons b bs ih =>
    by_cases hc : key b < key a
    · rw [insertBy, if_pos hc]
      exact (ih.cons b).trans (List.Perm.swap a b bs)
    · rw [insertBy, if_neg hc]

theorem stableSortBy_perm (key : α → ℚ) (l : List α) :
    List.Perm (stableSortBy key l) l := by
  induction l with
  | nil => simp [stableSortBy]
  | cons a as ih =>
    exact (insertBy_perm key a (stableSortBy key as)).trans (ih.cons a)

theorem stableSortBy_length (key : α → ℚ) (l : List α) :
    (stableSortBy key l).length = l.length :=
  (stableSortBy_perm key l).length_eq

theorem insertBy_pairwise (key : α → ℚ) (a : α) (l : List α)
    (h : l.Pairwise (fun x y => key x ≤ key y)) :
    (insertBy key a l).Pairwise (fun x y => key x ≤ key y) := by
  induction l with
  | nil => simp [insertBy]
  | cons b bs ih =>
    rcases List.pairwise_cons.mp h with ⟨hb, hbs⟩
    by_cases hc : key b < key a
    · rw [insertBy, if_pos hc]
      refine List.pairwise_cons.mpr ⟨?_, ih hbs⟩
      intro x hx
      rcases List.mem_cons.mp ((insertBy_perm key a bs).mem_iff.mp hx) with hxa | hxb
      · rw [hxa]; exact le_of_lt hc
      · exact hb x hxb
    · rw [insertBy, if_neg hc]
      refine List.pairwise_cons.mpr ⟨?_, h⟩
      intro x hx
      rcases List.mem_cons.mp hx with hxb | hxbs
      · rw [hxb]; exact le_of_not_lt hc
      · exact le_trans (le_of_not_lt hc) (hb x hxbs)

theorem stableSortBy_pairwise (key : α → ℚ) (l : List α) :
    (stableSortBy key l).Pairwise (fun x y => key x ≤ key y) := by
  induction l with
  | nil => simp [stableSortBy]
  | cons a as ih => exact insertBy_pairwise key a (stableSortBy key as) ih

/-! ## Lemmas about the split walk -/

theorem splitWalk_of_nondegenerate (env : SplitEnv) (page : PDFPage) :
    ∀ (ls : List SplitLine) (i : Nat) (cy : ℚ),
      (∀ h ∈ bandHeights env cy ls, 5 < h) →
      (splitWalk env page i cy ls).length = ls.length + 1 ∧
      (splitWalk env page i cy ls).map PDFPage.width =
        List.replicate (ls.length + 1) env.sourceW ∧
      (splitWalk env page i cy ls).map PDFPage.parentPageId =
        List.replicate (ls.length + 1) (some page.id) := by
  intro ls
  induction ls with
  | nil =>
    intro i cy hband
    have h5 : 5 < segmentHeight cy env.sourceH := hband _ (by simp [bandHeights])
    simp [splitWalk, if_pos h5, mkSegment]
  | cons l rest ih =>
    intro i cy hband
    have h5 : 5 < segmentHeight cy (minY l) := hband _ (by simp [bandHeights])
    have hrest := ih (i + 1) (minY l + 2)
      (fun h hm => hband h (by simp [bandHeights, hm]))
    simp [splitWalk, if_pos h5, mkSegment, hrest.1, hrest.2.1, hrest.2.2,
      List.replicate_succ]

theorem splitWalk_of_degenerate (env : SplitEnv) (page : PDFPage) :
    ∀ (ls : List SplitLine) (i : Nat) (cy : ℚ),
      (∀ h ∈ bandHeights env cy ls, h ≤ 5) →
      splitWalk env page i cy ls = [] := by
  intro ls
  induction ls with
  | nil =>
    intro i cy hband
    have h5 : segmentHeight cy env.sourceH ≤ 5 := hband _ (by simp [bandHeights])
    simp [splitWalk, if_neg (not_lt.mpr h5)]
  | cons l rest ih =>
    intro i cy hband
    have h5 : segmentHeight cy (minY l) ≤ 5 := hband _ (by simp [bandHeights])
    simp [splitWalk, if_neg (not_lt.mpr h5),
      ih (i + 1) (minY l + 2) (fun h hm => hband h (by simp [bandHeights, hm]))]

/-! ## Demonstration values used by the concrete instances -/

/-- A split environment for a 100 × 100 source raster drawn at native
scale, with an uninterpreted segment encoder. -/
def demoEnv : SplitEnv :=
  { sourceW := 100, sourceH := 100, scaleX := 1, scaleY := 1
    encodeSegment := fun _ _ => "segment-bytes" }

/-- A single horizontal stroke across the page at height 20. -/
def demoLine : SplitLine :=
  { id := "L1", points := [⟨0, 20⟩, ⟨10, 20⟩], isDrawing := false }

/-- An unsplit page of the demo raster carrying one split line. -/
def demoPage : PDFPage :=
  { defaultPage with id := "p", name := "page", imageData := "img"
                     width := 100, height := 100
                     crop := ⟨0, 0, 100, 100⟩
                     splitLines := some [demoLine] }

theorem demo_bandHeights :
    bandHeights demoEnv 0 (sortedScaledLines demoEnv [demoLine]) = [20, 78] := by
  norm_num [bandHeights, sortedScaledLines, stableSortBy, insertBy, rescaleLine,
    minY, segmentHeight, demoEnv, demoLine]

/-- C1: a page whose split lines, rescaled into raster space and sorted
by mean Y, produce only non-degenerate bands is split into exactly
`k + 1` segments for `k` lines; each segment's width equals the source
raster width and each segment's `parentPageId` is the original page's
id. -/
theorem splitImageByLines_nondegenerate (env : SplitEnv) (page : PDFPage)
    (lines : List SplitLine) (hlines : page.splitLines = some lines) (hne : lines ≠ [])
    (hband : ∀ h ∈ bandHeights env 0 (sortedScaledLines env lines), 5 < h) :
    (splitImageByLines env page).length = lines.length + 1 ∧
    (splitImageByLines env page).map PDFPage.width =
      List.replicate (lines.length + 1) env.sourceW ∧
    (splitImageByLines env page).map PDFPage.parentPageId =
      List.replicate (lines.length + 1) (some page.id) := by
  have hwalk := splitWalk_of_nondegenerate env page (sortedScaledLines env lines) 0 0 hband
  have hlen : (sortedScaledLines env lines).length = lines.length := by
    simp [sortedScaledLines, stableSortBy_length]
  rw [hlen] at hwalk
  have hne2 : (splitWalk env page 0 0 (sortedScaledLines env lines)) ≠ [] := by
    intro hsw
    have h1 := hwalk.1
    rw [hsw] at h1
    simp at h1
  have hresult : splitImageByLines env page =
      splitWalk env page 0 0 (sortedScaledLines env lines) := by
    simp only [splitImageByLines, hlines]
    rw [if_neg (by simpa using hne), if_neg (by simpa using hne2)]
  rw [hresult]
  exact hwalk

/-- C1 witness: the demo page with one non-degenerate line splits into
two full-width segments parented to it. -/
theorem splitImageByLines_nondegenerate_witness :
    (splitImageByLines demoEnv demoPage).length = 2 ∧
    (splitImageByLines demoEnv demoPage).map PDFPage.width =
      List.replicate 2 (100 : ℚ) ∧
    (splitImageByLines demoEnv demoPage).map PDFPage.parentPageId =
      List.replicate 2 (some "p") :=
  splitImageByLines_nondegenerate demoEnv demoPage [demoLine] rfl (by simp)
    (by rw [demo_bandHeights]; decide)

/-- C2: splitting a page that has no split lines returns exactly that
page unchanged as the sole result, and likewise when every candidate
band falls at or below the 5-pixel degeneracy threshold (the source
drops bands with `segmentHeight <= 5`, so in particular every band
shorter than 5 px is dropped). -/
theorem splitImageByLines_identity (env : SplitEnv) (page : PDFPage) :
    ((page.splitLines = none ∨ page.splitLines = some []) →
      splitImageByLines env page = [page]) ∧
    (∀ lines, page.splitLines = some lines →
      (∀ h ∈ bandHeights env 0 (sortedScaledLines env lines), h ≤ 5) →
      splitImageByLines env page = [page]) := by
  constructor
  · rintro (h | h) <;> simp [splitImageByLines, h]
  · intro lines hlines hband
    simp only [splitImageByLines, hlines]
    by_cases hne : lines.isEmpty
    · rw [if_pos hne]
    · rw [if_neg hne]
      simp [splitWalk_of_degenerate env page (sortedScaledLines env lines) 0 0 hband]

/-- A page carrying one split line whose two candidate bands are both
degenerate on a 7-pixel-tall source raster: the bands are
`max 1 ⌊3⌋ = 3` and `max 1 ⌊7 - 5⌋ = 2`, both at most 5. -/
def degeneratePage : PDFPage :=
  { defaultPage with id := "q", name := "tiny", imageData := "img"
                     width := 100, height := 7
                     splitLines := some [{ id := "L2", points := [⟨0, 3⟩, ⟨10, 3⟩]
                                           isDrawing := false }] }

/-- The demo environment of the 7-pixel-tall raster. -/
def degenerateEnv : SplitEnv :=
  { sourceW := 100, sourceH := 7, scaleX := 1, scaleY := 1
    encodeSegment := fun _ _ => "segment-bytes" }

theorem degenerate_bandHeights :
    bandHeights degenerateEnv 0
      (sortedScaledLines degenerateEnv
        [{ id := "L2", points := [⟨0, 3⟩, ⟨10, 3⟩], isDrawing := false }]) = [3, 2] := by
  norm_num [bandHeights, sortedScaledLines, stableSortBy, insertBy, rescaleLine,
    minY, segmentHeight, degenerateEnv]

/-- C2 witness: a page with no lines is returned unchanged, and so is
the all-degenerate demo page. -/
theorem splitImageByLines_identity_witness :
    splitImageByLines demoEnv defaultPage = [defaultPage] ∧
    splitImageByLines degenerateEnv degeneratePage = [degeneratePage] :=
  ⟨(splitImageByLines_identity demoEnv defaultPage).1 (Or.inl rfl),
   (splitImageByLines_identity degenerateEnv degeneratePage).2 _ rfl
     (by rw [degenerate_bandHeights]; decide)⟩

/-! ## History Manager: C4 -/

/-- A page named A. -/
def pgA : PDFPage := { defaultPage with id := "A" }

/-- A page named B. -/
def pgB : PDFPage := { defaultPage with id := "B" }

/-- A page named C. -/
def pgC : PDFPage := { defaultPage with id := "C" }

/-- A component state whose history holds one entry `[pgA]` (cursor on
it) while the live page list has since become `[pgB]`. -/
def historyDemoState : AppState :=
  { sessions := [{ id := "s1", name := "S1", pages := [pgB], createdAt := 0, modifiedAt := 0 }]
    activeSessionId := "s1", pages := [pgB]
    selectedPages := [], floatingPages := [], zoomedPages := [], rearrangeMode := false
    editHistory := [[pgA]], currentHistoryIndex := 0 }

/-- C4 counterexample: from `historyDemoState` (live list `[pgB]`), a
snapshot followed by a mutation of the live list to `[pgC]` followed by
one `undo` yields `[pgA]` — not the list `[pgB]` that existed
immediately before the mutation.  `undo` installs
`editHistory[cursor - 1]`, skipping the just-pushed snapshot. -/
theorem undo_after_snapshot_counterexample :
    (undo { saveToHistory historyDemoState with pages := [pgC] }).pages = [pgA] ∧
    [pgA] ≠ [pgB] := by
  constructor
  · decide
  · decide

/-- C4 amended: after a snapshot and an arbitrary mutation of the live
page list, one `undo` installs the entry the cursor pointed at *before*
the snapshot (`editHistory[cursor]`), not the pre-mutation live list,
and moves the cursor back onto that entry; `undo` at the oldest entry
(cursor at or below 0) changes nothing. -/
theorem undo_after_snapshot_restores_cursor_entry (st : AppState) (mutated : List PDFPage)
    (h0 : 0 ≤ st.currentHistoryIndex)
    (h1 : st.currentHistoryIndex < (st.editHistory.length : Int)) :
    (undo { saveToHistory st with pages := mutated }).pages =
      st.editHistory.getD st.currentHistoryIndex.toNat [] ∧
    (undo { saveToHistory st with pages := mutated }).currentHistoryIndex =
      st.currentHistoryIndex ∧
    (∀ s : AppState, s.currentHistoryIndex ≤ 0 → undo s = s) := by
  have htoNat : (st.currentHistoryIndex + 1).toNat = st.currentHistoryIndex.toNat + 1 := by
    omega
  have htake : (st.editHistory.take (st.currentHistoryIndex.toNat + 1)).length =
      st.currentHistoryIndex.toNat + 1 := by
    rw [List.length_take]
    omega
  have hidx2 : (saveToHistory st).currentHistoryIndex = st.currentHistoryIndex + 1 := by
    simp only [saveToHistory, htoNat, List.length_append, htake, List.length_cons,
      List.length_nil]
    push_cast
    omega
  have hhist2 : (saveToHistory st).editHistory =
      st.editHistory.take (st.currentHistoryIndex.toNat + 1) ++ [st.pages] := by
    simp only [saveToHistory, htoNat]
  have hpos : 0 < ({ saveToHistory st with pages := mutated } : AppState).currentHistoryIndex := by
    show 0 < (saveToHistory st).currentHistoryIndex
    rw [hidx2]
    omega
  refine ⟨?_, ?_, ?_⟩
  · unfold undo
    rw [if_pos hpos]
    show (saveToHistory st).editHistory.getD
      ((saveToHistory st).currentHistoryIndex - 1).toNat [] =
      st.editHistory.getD st.currentHistoryIndex.toNat []
    rw [hidx2, hhist2]
    have h2 : (st.currentHistoryIndex + 1 - 1).toNat = st.currentHistoryIndex.toNat := by
      omega
    rw [h2, List.getD_eq_getElem?_getD, List.getD_eq_getElem?_getD,
      List.getElem?_append_left (by rw [htake]; omega),
      List.getElem?_take_of_lt (by omega)]
  · unfold undo
    rw [if_pos hpos]
    show (saveToHistory st).currentHistoryIndex - 1 = st.currentHistoryIndex
    rw [hidx2]
    omega
  · intro s hs
    unfold undo
    rw [if_neg (by omega)]

/-- C4 amended witness: at `historyDemoState` the snapshot-mutate-undo
sequence lands on `editHistory[0] = [pgA]` with the cursor back at 0,
and `undo` at cursor 0 is the identity. -/
theorem undo_after_snapshot_restores_cursor_entry_witness :
    (undo { saveToHistory historyDemoState with pages := [pgC] }).pages =
      historyDemoState.editHistory.getD 0 [] ∧
    (undo { saveToHistory historyDemoState with pages := [pgC] }).currentHistoryIndex = 0 ∧
    (∀ s : AppState, s.currentHistoryIndex ≤ 0 → undo s = s) :=
  undo_after_snapshot_restores_cursor_entry historyDemoState [pgC] (by decide) (by decide)

/-! ## Session Manager: C10, C6, C7 -/

/-- Session A holding page `pgA`. -/
def sessA : PDFSession :=
  { id := "A", name := "Session A", pages := [pgA], createdAt := 0, modifiedAt := 0 }

/-- Session B holding page `pgB`. -/
def sessB : PDFSession :=
  { id := "B", name := "Session B", pages := [pgB], createdAt := 0, modifiedAt := 0 }

/-- A state with sessions A (active, live list `[pgA]`) and B, whose
undo history was captured while A was active: entry 0 is `[pgA]` and
the cursor sits on entry 1. -/
def crossSessionState : AppState :=
  { sessions := [sessA, sessB], activeSessionId := "A", pages := [pgA]
    selectedPages := [], floatingPages := [], zoomedPages := [], rearrangeMode := false
    editHistory := [[pgA], [pgC]], currentHistoryIndex := 1 }

/-- C10: `switchToSession` never touches the undo history stack or its
cursor — the history is one component-wide stack, not per-session — and
concretely, switching `crossSessionState` from A to B and then calling
`undo` installs `[pgA]`, a snapshot captured while session A was
active, as the live page list of session B. -/
theorem switchToSession_preserves_history :
    (∀ (now : Int) (st : AppState) (sid : String),
      (switchToSession now st sid).editHistory = st.editHistory ∧
      (switchToSession now st sid).currentHistoryIndex = st.currentHistoryIndex) ∧
    ((undo (switchToSession 7 crossSessionState "B")).activeSessionId = "B" ∧
     (undo (switchToSession 7 crossSessionState "B")).pages = [pgA] ∧
     sessB.pages ≠ [pgA]) := by
  constructor
  · intro now st sid
    simp only [switchToSession, saveCurrentSession]
    cases hf : st.sessions.find? (fun s => s.id == sid) <;>
      by_cases he : st.sessions.isEmpty <;> simp [hf, he]
  · refine ⟨by decide, by decide, by decide⟩

theorem find?_map_id_preserving (f : PDFSession → PDFSession)
    (hf : ∀ s, (f s).id = s.id) (l : List PDFSession) (x : String) :
    (l.map f).find? (fun s => s.id == x) = (l.find? (fun s => s.id == x)).map f := by
  induction l with
  | nil => rfl
  | cons s rest ih =>
    cases h : (s.id == x) with
    | true => simp [List.find?, hf s, h]
    | false => simp [List.find?, hf s, h, ih]

theorem switchToSession_of_find (now : Int) (st : AppState) (sid : String)
    (s : PDFSession) (h : st.sessions.find? (fun t => t.id == sid) = some s) :
    (switchToSession now st sid).pages = s.pages ∧
    (switchToSession now st sid).activeSessionId = sid := by
  refine ⟨?_, ?_⟩ <;> simp only [switchToSession, h]

/-- C6: switching from the active session A to any session B and then
back to A restores exactly the live page list A had at the moment of
the first switch (pages, order, and metadata alike), and leaves A
active. -/
theorem switch_away_and_back_restores (st : AppState) (a b : String) (now1 now2 : Int)
    (ha : st.activeSessionId = a)
    (hfa : (st.sessions.find? (fun s => s.id == a)).isSome)
    (hfb : (st.sessions.find? (fun s => s.id == b)).isSome) :
    (switchToSession now2 (switchToSession now1 st b) a).pages = st.pages ∧
    (switchToSession now2 (switchToSession now1 st b) a).activeSessionId = a := by
  obtain ⟨sA, hA⟩ := Option.isSome_iff_exists.mp hfa
  obtain ⟨sB, hB⟩ := Option.isSome_iff_exists.mp hfb
  have hne : st.sessions.isEmpty = false := by
    cases hs : st.sessions with
    | nil => rw [hs] at hA; simp [List.find?] at hA
    | cons x xs => simp
  have hsAid : (sA.id == a) = true := by
    have := List.find?_some hA
    simpa using this
  have hst1 : switchToSession now1 st b =
      { st with
          sessions := st.sessions.map fun s =>
            if s.id == st.activeSessionId then { s with pages := st.pages, modifiedAt := now1 }
            else s
          activeSessionId := b, pages := sB.pages
          selectedPages := [], floatingPages := [], zoomedPages := []
          rearrangeMode := false } := by
    simp only [switchToSession, saveCurrentSession, hne, Bool.false_eq_true, if_false, hB]
  have hfind2 : ((switchToSession now1 st b).sessions).find? (fun s => s.id == a) =
      some { sA with pages := st.pages, modifiedAt := now1 } := by
    rw [hst1]
    show ((st.sessions.map fun s =>
      if s.id == st.activeSessionId then { s with pages := st.pages, modifiedAt := now1 }
      else s).find? (fun s => s.id == a)) = _
    rw [find?_map_id_preserving _ (fun s => by by_cases h : (s.id == st.activeSessionId) <;>
      simp [h]) _ _, hA]
    rw [Option.map_some', ha, if_pos hsAid]
  exact switchToSession_of_find now2 (switchToSession now1 st b) a
    { sA with pages := st.pages, modifiedAt := now1 } hfind2

/-- C6 witness: at `crossSessionState` (A active, live list `[pgA]`),
switching to B and back to A restores the live list and the active id. -/
theorem switch_away_and_back_restores_witness :
    (switchToSession 2 (switchToSession 1 crossSessionState "B") "A").pages =
      crossSessionState.pages ∧
    (switchToSession 2 (switchToSession 1 crossSessionState "B") "A").activeSessionId = "A" :=
  switch_away_and_back_restores crossSessionState "A" "B" 1 2 rfl (by decide) (by decide)

theorem map_map_id_preserving (f : PDFSession → PDFSession)
    (hf : ∀ s, (f s).id = s.id) (l : List PDFSession) :
    (l.map f).map PDFSession.id = l.map PDFSession.id := by
  rw [List.map_map]
  exact List.map_congr_left fun s _ => hf s

theorem saveCurrentSession_map_id (now : Int) (st : AppState) :
    (saveCurrentSession now st).sessions.map PDFSession.id =
      st.sessions.map PDFSession.id := by
  unfold saveCurrentSession
  by_cases h : st.sessions.isEmpty
  · rw [if_pos h]
  · rw [if_neg h]
    exact map_map_id_preserving _
      (fun s => by by_cases hh : (s.id == st.activeSessionId) <;> simp [hh]) _

theorem switchToSession_sessions (now : Int) (st : AppState) (sid : String) :
    (switchToSession now st sid).sessions = (saveCurrentSession now st).sessions := by
  unfold switchToSession
  cases h : st.sessions.find? (fun s => s.id == sid) <;> simp [h]

/-- C7: the session collection is never empty and the active pointer
always names one of the sessions: `closeSession` on the only remaining
session mutates nothing, the well-formedness invariant is preserved,
and closing the active session among several activates one of the
remaining sessions. -/
theorem closeSession_invariants (st : AppState) (sid : String) (now : Int) :
    (st.sessions.length = 1 → closeSession now st sid = st) ∧
    (sessionsWellFormed st →
      sessionsWellFormed (closeSession now st sid) ∧
      (1 < st.sessions.length → sid = st.activeSessionId →
        (closeSession now st sid).activeSessionId ∈
          (st.sessions.filter (fun s => !(s.id == sid))).map PDFSession.id)) := by
  constructor
  · intro h
    unfold closeSession
    rw [if_pos h]
  · intro hwf
    obtain ⟨hne, hnodup, hactive⟩ := hwf
    by_cases hlen : st.sessions.length = 1
    · have heq : closeSession now st sid = st := by
        unfold closeSession
        rw [if_pos hlen]
      rw [heq]
      exact ⟨⟨hne, hnodup, hactive⟩, fun hgt _ => absurd hlen (by omega)⟩
    · have hlen2 : 2 ≤ st.sessions.length := by
        have h0 : st.sessions.length ≠ 0 := fun h0 =>
          hne (List.eq_nil_of_length_eq_zero h0)
        omega
      set F := st.sessions.filter (fun s => !(s.id == sid)) with hF
      have hFsub : List.Sublist F st.sessions := List.filter_sublist _
      have hFnodup : (F.map PDFSession.id).Nodup :=
        List.Nodup.sublist (List.Sublist.map PDFSession.id hFsub) hnodup
      by_cases hact : (sid == st.activeSessionId) = true
      · -- closing the active session
        have hFne : F ≠ [] := by
          intro hFnil
          obtain ⟨s1, tl, hs1⟩ := List.exists_cons_of_ne_nil hne
          cases tl with
          | nil => rw [hs1] at hlen; simp at hlen
          | cons s2 tl2 =>
            have hmemF : ∀ s ∈ st.sessions, (s.id == sid) = true := by
              intro s hs
              by_contra hno
              have hmem : s ∈ F := List.mem_filter.mpr ⟨hs, by simp [hno]⟩
              rw [hFnil] at hmem
              exact absurd hmem (List.not_mem_nil s)
            have e1 : s1.id = sid := by
              simpa using hmemF s1 (by rw [hs1]; exact List.mem_cons_self s1 _)
            have e2 : s2.id = sid := by
              simpa using hmemF s2 (by rw [hs1]; simp)
            rw [hs1] at hnodup
            simp only [List.map_cons, List.nodup_cons] at hnodup
            exact hnodup.1 (by rw [e1, ← e2]; simp)
        obtain ⟨r, rest, hFr⟩ := List.exists_cons_of_ne_nil hFne
        have hclose : closeSession now st sid =
            switchToSession now { st with sessions := F } r.id := by
          unfold closeSession
          rw [if_neg hlen, if_pos hact, ← hF, hFr]
        have hfind : ({ st with sessions := F } : AppState).sessions.find?
            (fun s => s.id == r.id) = some r := by
          show F.find? (fun s => s.id == r.id) = some r
          rw [hFr]
          simp [List.find?]
        have hres := switchToSession_of_find now { st with sessions := F } r.id r hfind
        have hids : (switchToSession now { st with sessions := F } r.id).sessions.map
            PDFSession.id = F.map PDFSession.id := by
          rw [switchToSession_sessions]
          exact saveCurrentSession_map_id now { st with sessions := F }
        have hrmem : r.id ∈ F.map PDFSession.id := by
          rw [hFr]
          simp
        rw [hclose]
        refine ⟨⟨?_, ?_, ?_⟩, ?_⟩
        · intro hnil
          rw [hnil] at hids
          rw [hFr] at hids
          simp at hids
        · rw [hids]
          exact hFnodup
        · rw [hids, hres.2]
          exact hrmem
        · intro _ _
          rw [hres.2]
          exact hrmem
      · -- closing an inactive session
        have hclose : closeSession now st sid = { st with sessions := F } := by
          unfold closeSession
          rw [if_neg hlen, if_neg hact]
        obtain ⟨s0, hs0mem, hs0id⟩ := List.mem_map.mp hactive
        have hs0F : s0 ∈ F := by
          refine List.mem_filter.mpr ⟨hs0mem, ?_⟩
          have : (s0.id == sid) = false := by
            rw [beq_eq_false_iff_ne]
            intro hcontra
            exact hact (by rw [beq_iff_eq, ← hcontra, hs0id])
          simp [this]
        rw [hclose]
        refine ⟨⟨?_, hFnodup, ?_⟩, ?_⟩
        · exact fun hnil => absurd (hnil ▸ hs0F) (List.not_mem_nil s0)
        · exact List.mem_map.mpr ⟨s0, hs0F, hs0id⟩
        · intro _ heq
          exact absurd (by rw [beq_iff_eq]; exact heq) hact

/-- C7 witness: closing the active session A of the two-session demo
state keeps the invariant and activates the remaining session B, and
closing the only session of the one-session demo state is a no-op. -/
theorem closeSession_invariants_witness :
    closeSession 0 historyDemoState "s1" = historyDemoState ∧
    sessionsWellFormed (closeSession 0 crossSessionState "A") ∧
    (closeSession 0 crossSessionState "A").activeSessionId ∈
      (crossSessionState.sessions.filter (fun s => !(s.id == "A"))).map PDFSession.id :=
  ⟨(closeSession_invariants historyDemoState "s1" 0).1 (by decide),
   ((closeSession_invariants crossSessionState "A" 0).2 (by decide)).1,
   ((closeSession_invariants crossSessionState "A" 0).2 (by decide)).2 (by decide) rfl⟩

/-! ## Job Queue: C5 -/

theorem extractLoop_eq_filterMap (units : List (Except String PDFPage)) :
    extractLoop units = units.filterMap Except.toOption := by
  induction units with
  | nil => rfl
  | cons u rest ih =>
    cases u with
    | ok p => simp [extractLoop, ih, Except.toOption, List.filterMap_cons]
    | error e => simp [extractLoop, ih, Except.toOption, List.filterMap_cons]

theorem extractLoop_length_add_failures (units : List (Except String PDFPage)) :
    (extractLoop units).length + units.countP unitFailed = units.length := by
  induction units with
  | nil => rfl
  | cons u rest ih =>
    cases u with
    | ok p => simp [extractLoop, unitFailed, List.countP_cons]; omega
    | error e => simp [extractLoop, unitFailed, List.countP_cons]; omega

/-- A demo job record in its running state. -/
def demoJob : ProcessingJob :=
  { id := "job1", sessionId := "A", sessionName := "Session A"
    status := JobStatus.processing, progress := 0, total := 2
    message := "Starting upload processing..." }

/-- C5: for a PDF-extraction job over `M` units of which `f` fail, the
job reaches terminal status `completed` when `f < M`, and reaches
status `error` (the spec's `failed`) exactly when `f = M`; every failed
unit is caught and excluded from the output while the successful units
are all kept, in order, so the page list grows by exactly the
successful units. -/
theorem finishPDFUpload_partial_failure (fileName : String) (numPages : Nat)
    (units : List (Except String PDFPage)) (job : ProcessingJob)
    (pages : List PDFPage) :
    (units.countP unitFailed < units.length →
      (finishPDFUpload fileName numPages units job pages).1.status = JobStatus.completed ∧
      (finishPDFUpload fileName numPages units job pages).2 =
        pages ++ units.filterMap Except.toOption) ∧
    ((finishPDFUpload fileName numPages units job pages).1.status = JobStatus.error ↔
      units.countP unitFailed = units.length) := by
  have hlen := extractLoop_length_add_failures units
  have hcount : units.countP unitFailed ≤ units.length := List.countP_le_length _
  constructor
  · intro hf
    have hpos : 0 < (extractLoop units).length := by omega
    constructor
    · unfold finishPDFUpload
      rw [if_pos hpos]
      rfl
    · unfold finishPDFUpload
      rw [if_pos hpos]
      show pages ++ extractLoop units = pages ++ units.filterMap Except.toOption
      rw [extractLoop_eq_filterMap]
  · constructor
    · intro hst
      by_contra hne
      have hf : units.countP unitFailed < units.length := by omega
      have hpos : 0 < (extractLoop units).length := by omega
      unfold finishPDFUpload at hst
      rw [if_pos hpos] at hst
      exact absurd hst (by simp [completeProcessingJob])
    · intro hf
      have hzero : (extractLoop units).length = 0 := by omega
      unfold finishPDFUpload
      rw [if_neg (by omega)]
      rfl

/-- C5 witness: two units of which the second fails complete the job
with one extracted page appended; two failing units drive it to the
`error` status. -/
theorem finishPDFUpload_partial_failure_witness :
    ((finishPDFUpload "doc.pdf" 2 [Except.ok pgA, Except.error "Render timeout"]
        demoJob []).1.status = JobStatus.completed ∧
      (finishPDFUpload "doc.pdf" 2 [Except.ok pgA, Except.error "Render timeout"]
        demoJob []).2 =
        [] ++ [Except.ok pgA, Except.error "Render timeout"].filterMap Except.toOption) ∧
    ((finishPDFUpload "doc.pdf" 2 [Except.error "bad page", Except.error "Render timeout"]
        demoJob []).1.status = JobStatus.error ↔
      [Except.error "bad page" (α := PDFPage), Except.error "Render timeout"].countP
        unitFailed = 2) :=
  ⟨(finishPDFUpload_partial_failure "doc.pdf" 2
      [Except.ok pgA, Except.error "Render timeout"] demoJob []).1 (by decide),
   (finishPDFUpload_partial_failure "doc.pdf" 2
      [Except.error "bad page", Except.error "Render timeout"] demoJob []).2⟩

/-! ## Manual rearrange: C3 -/

/-- The zero-based positions `[0, 1, ..., n-1]` as integers. -/
def intRange (n : Nat) : List Int := List.map (fun i : Nat => (i : Int)) (List.range n)

/-- The list `[1, 2, ..., n]` of valid one-based rearrange positions. -/
def rearrangeTarget (n : Nat) : List Int :=
  List.map (fun i : Nat => (i : Int) + 1) (List.range n)

theorem intRange_length (n : Nat) : (intRange n).length = n := by
  simp only [intRange, List.length_map, List.length_range]

theorem intRange_nodup (n : Nat) : (intRange n).Nodup := by
  refine List.Nodup.map ?_ (List.nodup_range n)
  intro a b h
  simpa using h

theorem mem_intRange_iff {n : Nat} {x : Int} :
    x ∈ intRange n ↔ 0 ≤ x ∧ x < (n : Int) := by
  simp only [intRange, List.mem_map, List.mem_range]
  constructor
  · rintro ⟨i, hi, rfl⟩
    omega
  · rintro ⟨h0, hn⟩
    exact ⟨x.toNat, by omega, by omega⟩

theorem dedup_length_eq_iff {l : List Int} : l.dedup.length = l.length ↔ l.Nodup := by
  constructor
  · intro h
    have hsub := List.dedup_sublist l
    rw [← List.Sublist.eq_of_length hsub h]
    exact List.nodup_dedup l
  · intro h
    rw [List.dedup_eq_self.mpr h]

theorem perm_intRange_of_conditions (l : List Int) (n : Nat)
    (hlen : l.length = n)
    (hmem : ∀ x ∈ l, 0 ≤ x ∧ x < (n : Int))
    (hnodup : l.Nodup) : List.Perm l (intRange n) := by
  apply List.perm_of_nodup_nodup_toFinset_eq hnodup (intRange_nodup n)
  apply Finset.eq_of_subset_of_card_le
  · intro x hx
    rw [List.mem_toFinset] at hx ⊢
    exact mem_intRange_iff.mpr (hmem x hx)
  · rw [List.toFinset_card_of_nodup hnodup,
      List.toFinset_card_of_nodup (intRange_nodup n), hlen, intRange_length]

/-- The accept condition of `applyInputRearrange`, characterised in
terms of the decremented positions. -/
theorem applyInputRearrange_accepted_char (pages : List PDFPage) (nums : List Int) :
    (applyInputRearrange pages nums).accepted = true ↔
      ((nums.map fun n => n - 1).length = pages.length ∧
       (∀ pos ∈ nums.map fun n => n - 1, 0 ≤ pos ∧ pos < (pages.length : Int)) ∧
       (nums.map fun n => n - 1).Nodup) := by
  simp only [applyInputRearrange]
  split_ifs with h1 h2
  · refine iff_of_true rfl ?_
    rw [Bool.and_eq_true] at h2
    obtain ⟨hall, hdedup⟩ := h2
    refine ⟨h1, ?_, dedup_length_eq_iff.mp (beq_iff_eq.mp hdedup)⟩
    intro pos hpos
    have hx := List.all_eq_true.mp hall pos hpos
    rw [Bool.and_eq_true] at hx
    exact ⟨of_decide_eq_true hx.1, of_decide_eq_true hx.2⟩
  · refine iff_of_false (by simp) ?_
    rintro ⟨-, hmem, hnodup⟩
    refine h2 ?_
    rw [Bool.and_eq_true]
    constructor
    · refine List.all_eq_true.mpr fun pos hpos => ?_
      rw [Bool.and_eq_true]
      exact ⟨decide_eq_true (hmem pos hpos).1, decide_eq_true (hmem pos hpos).2⟩
    · exact beq_iff_eq.mpr (dedup_length_eq_iff.mpr hnodup)
  · refine iff_of_false (by simp) ?_
    rintro ⟨hlen, -, -⟩
    exact h1 hlen

theorem applyInputRearrange_rejected_unchanged (pages : List PDFPage) (nums : List Int) :
    (applyInputRearrange pages nums).accepted = false →
    (applyInputRearrange pages nums).pages = pages := by
  simp only [applyInputRearrange]
  split_ifs with h1 h2
  · intro hfalse
    simp at hfalse
  · intro _
    rfl
  · intro _
    rfl

theorem rearrangeTarget_map_sub_one (n : Nat) :
    List.map (fun m : Int => m - 1) (rearrangeTarget n) = intRange n := by
  rw [rearrangeTarget, intRange, List.map_map]
  refine List.map_congr_left fun i _ => ?_
  simp [Function.comp]

theorem intRange_map_add_one (n : Nat) :
    List.map (fun m : Int => m + 1) (intRange n) = rearrangeTarget n := by
  rw [rearrangeTarget, intRange, List.map_map]
  exact List.map_congr_left fun i _ => rfl

theorem perm_rearrangeTarget_iff (nums : List Int) (n : Nat) :
    List.Perm nums (rearrangeTarget n) ↔
      List.Perm (nums.map fun m => m - 1) (intRange n) := by
  constructor
  · intro h
    have h2 := h.map fun m : Int => m - 1
    rw [rearrangeTarget_map_sub_one] at h2
    exact h2
  · intro h
    have h2 := h.map fun m : Int => m + 1
    rw [intRange_map_add_one] at h2
    have e1 : List.map (fun m : Int => m + 1) (List.map (fun m : Int => m - 1) nums) =
        nums := by
      rw [List.map_map]
      refine (List.map_congr_left fun m _ => ?_).trans (List.map_id nums)
      simp [Function.comp]
    rw [e1] at h2
    exact h2

/-- C3: `applyInputRearrange` on a session of N pages accepts its input
exactly when the supplied numbers are a permutation of `[1..N]`
(correct count, all in range, no duplicates); a rejected input leaves
the page list untouched; and on the session `[A, B, C]` the input
`3,1,2` is accepted and produces the order `[C, A, B]` with integer
order keys 0, 1, 2. -/
theorem applyInputRearrange_bijection :
    (∀ (pages : List PDFPage) (nums : List Int),
      ((applyInputRearrange pages nums).accepted = true ↔
        List.Perm nums (rearrangeTarget pages.length)) ∧
      ((applyInputRearrange pages nums).accepted = false →
        (applyInputRearrange pages nums).pages = pages)) ∧
    ((applyInputRearrange [pgA, pgB, pgC] [3, 1, 2]).accepted = true ∧
     (applyInputRearrange [pgA, pgB, pgC] [3, 1, 2]).pages.map PDFPage.id =
       ["C", "A", "B"] ∧
     (applyInputRearrange [pgA, pgB, pgC] [3, 1, 2]).pages.map PDFPage.order =
       [0, 1, 2]) := by
  constructor
  · intro pages nums
    constructor
    · rw [applyInputRearrange_accepted_char, perm_rearrangeTarget_iff]
      constructor
      · rintro ⟨hlen, hmem, hnodup⟩
        exact perm_intRange_of_conditions _ _ hlen hmem hnodup
      · intro hperm
        refine ⟨?_, ?_, ?_⟩
        · rw [hperm.length_eq, intRange_length]
        · intro pos hpos
          exact mem_intRange_iff.mp (hperm.mem_iff.mp hpos)
        · exact (hperm.nodup_iff).mpr (intRange_nodup _)
    · exact applyInputRearrange_rejected_unchanged pages nums
  · refine ⟨by decide, by decide, ?_⟩
    norm_num [applyInputRearrange, reindexFrom, pgA, pgB, pgC, defaultPage,
      List.dedup, List.getD]

/-- C3 witness: the duplicate input `2,2,3` on the three-page demo
session is rejected and mutates nothing. -/
theorem applyInputRearrange_bijection_witness :
    (applyInputRearrange [pgA, pgB, pgC] [2, 2, 3]).pages = [pgA, pgB, pgC] :=
  (applyInputRearrange_bijection.1 [pgA, pgB, pgC] [2, 2, 3]).2 (by decide)

/-! ## Apply split to all pages: C8 -/

/-- C8 amended, part 1: with the apply-to-all toggle set,
`applySplitsToAllPages` installs exactly the per-page split results,
concatenated in page order, as a list re-sorted (stably) by the `order`
key — the `order` values themselves are the ones assigned at split time
and are not reassigned to integer indices. -/
theorem applySplitsToAllPages_sorted_concat (env : String → SplitEnv) (st : AppState) :
    List.Perm (applySplitsToAllPages env true st).pages
      (st.pages.flatMap (splitPageIfHasLines env)) ∧
    List.Pairwise (fun p q => p.order ≤ q.order)
      (applySplitsToAllPages env true st).pages := by
  constructor
  · show List.Perm
      (stableSortBy PDFPage.order (st.pages.flatMap (splitPageIfHasLines env))) _
    exact stableSortBy_perm _ _
  · show List.Pairwise _
      (stableSortBy PDFPage.order (st.pages.flatMap (splitPageIfHasLines env)))
    exact stableSortBy_pairwise _ _

/-- The environment map of the demo raster, for every page id. -/
def demoEnvMap : String → SplitEnv := fun _ => demoEnv

/-- A one-session state whose single page is the demo page with one
split line. -/
def c8State : AppState :=
  { sessions := [sessA], activeSessionId := "A", pages := [demoPage]
    selectedPages := [], floatingPages := [], zoomedPages := [], rearrangeMode := false
    editHistory := [], currentHistoryIndex := -1 }

/-- C8 counterexample: applying the split to all pages of `c8State`
leaves the two segments with order keys `0` and `1/1000` — the
fractional orders assigned at split time — and does not reassign the
integer indices `0..M-1` that the claim describes. -/
theorem applySplitsToAllPages_no_reindex :
    (applySplitsToAllPages demoEnvMap true c8State).pages.map PDFPage.order =
      [0, 1 / 1000] ∧
    (applySplitsToAllPages demoEnvMap true c8State).pages.map PDFPage.order ≠
      List.map (fun i : Nat => (i : ℚ)) (List.range
        (applySplitsToAllPages demoEnvMap true c8State).pages.length) := by
  have h : (applySplitsToAllPages demoEnvMap true c8State).pages.map PDFPage.order =
      [0, 1 / 1000] := by
    norm_num [applySplitsToAllPages, saveToHistory, splitPageIfHasLines,
      splitImageByLines, sortedScaledLines, stableSortBy, insertBy, splitWalk,
      mkSegment, segmentHeight, minY, rescaleLine, meanY, demoEnvMap, demoEnv,
      demoPage, demoLine, defaultPage, c8State]
  refine ⟨h, ?_⟩
  have hlen : (applySplitsToAllPages demoEnvMap true c8State).pages.length = 2 := by
    have hh := congrArg List.length h
    simpa using hh
  rw [h, hlen]
  intro hcontra
  rw [show List.range 2 = [0, 1] from rfl] at hcontra
  simp at hcontra

/-! ## The splitLines/parentPageId invariant: C9 -/

/-- A derived segment page: `parentPageId` set, no `splitLines`. -/
def derivedPage : PDFPage :=
  { defaultPage with id := "d", name := "seg", imageData := "img"
                     parentPageId := some "p0", splitIndex := some 0 }

/-- C9 counterexample: drawing a split line on a derived page yields a
page carrying both a non-empty `splitLines` list and a `parentPageId` —
`finishDrawingSplitLine` attaches the stroke to whatever page is
targeted, without checking lineage, so the invariant is not preserved
by drawing on an arbitrary page. -/
theorem draw_on_derived_counterexample :
    pagesInvariant [derivedPage] ∧
    ¬ pagesInvariant (finishDrawingSplitLine true (some "d")
        [⟨0, 1⟩, ⟨0, 2⟩] "L9" [derivedPage]) := by
  constructor
  · decide
  · decide

theorem splitWalk_splitLines_none (env : SplitEnv) (page : PDFPage) :
    ∀ (ls : List SplitLine) (i : Nat) (cy : ℚ),
      ∀ q ∈ splitWalk env page i cy ls, q.splitLines = none := by
  intro ls
  induction ls with
  | nil =>
    intro i cy q hq
    simp only [splitWalk] at hq
    by_cases h : 5 < segmentHeight cy env.sourceH
    · rw [if_pos h] at hq
      simp only [List.mem_singleton] at hq
      rw [hq]
      rfl
    · rw [if_neg h] at hq
      simp at hq
  | cons l rest ih =>
    intro i cy q hq
    simp only [splitWalk, List.mem_append] at hq
    rcases hq with hq | hq
    · by_cases h : 5 < segmentHeight cy (minY l)
      · rw [if_pos h] at hq
        simp only [List.mem_singleton] at hq
        rw [hq]
        rfl
      · rw [if_neg h] at hq
        simp at hq
    · exact ih (i + 1) (minY l + 2) q hq

/-- C9 amended: splitting always yields pages satisfying the invariant
when its input does (fresh segments carry no `splitLines` at all), and
`finishDrawingSplitLine` preserves the invariant provided the targeted
page is not a derived segment; the source performs no such check, so
the invariant can be broken by drawing on a derived page (see the
counterexample). -/
theorem split_invariant_preservation (env : SplitEnv) (page : PDFPage)
    (isDraw : Bool) (targetId : Option String) (stroke : List Point)
    (lineId : String) (pages : List PDFPage)
    (hp : pageInvariant page)
    (hinv : pagesInvariant pages)
    (htarget : ∀ p ∈ pages, (some p.id == targetId) = true → p.parentPageId = none) :
    pagesInvariant (splitImageByLines env page) ∧
    pagesInvariant (finishDrawingSplitLine isDraw targetId stroke lineId pages) := by
  constructor
  · cases hsl : page.splitLines with
    | none =>
      intro q hq
      simp only [splitImageByLines, hsl, List.mem_singleton] at hq
      rw [hq]
      exact hp
    | some lines =>
      intro q hq
      simp only [splitImageByLines, hsl] at hq
      by_cases he : lines.isEmpty
      · rw [if_pos he] at hq
        simp only [List.mem_singleton] at hq
        rw [hq]
        exact hp
      · rw [if_neg he] at hq
        by_cases hw : (splitWalk env page 0 0 (sortedScaledLines env lines)).isEmpty
        · rw [if_pos hw] at hq
          simp only [List.mem_singleton] at hq
          rw [hq]
          exact hp
        · rw [if_neg hw] at hq
          have hnone := splitWalk_splitLines_none env page
            (sortedScaledLines env lines) 0 0 q hq
          intro hne
          rw [hnone] at hne
          simp at hne
  · intro q hq
    unfold finishDrawingSplitLine at hq
    by_cases hg : (!isDraw || targetId.isNone || decide (stroke.length < 2)) = true
    · rw [if_pos hg] at hq
      exact hinv q hq
    · rw [if_neg hg] at hq
      rcases List.mem_map.mp hq with ⟨p, hpmem, rfl⟩
      by_cases ht : (some p.id == targetId) = true
      · rw [if_pos ht]
        intro _
        exact htarget p hpmem ht
      · rw [if_neg ht]
        exact hinv p hpmem

/-- C9 amended witness: splitting the demo page and drawing a stroke on
it (an underived page) both keep the invariant. -/
theorem split_invariant_preservation_witness :
    pagesInvariant (splitImageByLines demoEnv demoPage) ∧
    pagesInvariant (finishDrawingSplitLine true (some "p")
      [⟨0, 1⟩, ⟨0, 2⟩] "L3" [demoPage]) :=
  split_invariant_preservation demoEnv demoPage true (some "p") [⟨0, 1⟩, ⟨0, 2⟩] "L3"
    [demoPage] (by decide) (by decide) (by decide)
